import Mathlib

/-!
Shallow embedding of the NG-FSSAI compliance core
(`fssai_kb.py` and `analyzer.py`): the FSSAI knowledge base
(load / lookup), the additive extraction regexes, per-ingredient
resolution, and the product-compliance aggregation rule.

Python dicts are modelled as association lists where insertion prepends
and lookup takes the first hit (so "last write wins", as in Python).
Machine-level details (JSON parsing, file IO) are modelled by a
`DataSource` field on the knowledge-base state describing what reading
the configured path would yield.
-/

/-- Python's `str.lower()` on the ASCII range, as a structurally
recursive map (kernel-computable, unlike `String.toLower`). -/
def strLower (s : String) : String := String.mk (s.data.map Char.toLower)

/-- One record of the FSSAI additives dataset, as consumed through
`dict.get`: every field optional (`additive.get(...)` semantics). -/
structure AdditiveRecord where
  ins_number : Option String
  name : Option String
  status : Option String
  max_ppm : Option Int
  allowed_in : Option (List String)
  notes : Option String
deriving DecidableEq, Repr

/-- An entry of the parsed JSON array: either a key-value record, or a
malformed entry (a non-mapping value, on which `additive.get` raises). -/
inductive DataEntry where
  | record (r : AdditiveRecord)
  | malformed
deriving DecidableEq, Repr

/-- What reading the knowledge base's configured data path yields:
file absent, unreadable / malformed JSON (open or `json.load` raises),
or a parsed array of entries. -/
inductive DataSource where
  | missing
  | bad
  | ok (entries : List DataEntry)
deriving DecidableEq, Repr

/-- The mutable state of `FSSAIKnowledgeBase`: the configured source,
the code index `additives`, the name index `name_to_ins`, and the
`loaded` flag. -/
structure KBState where
  source : DataSource
  additives : List (String × AdditiveRecord)
  name_to_ins : List (String × Option String)
  loaded : Bool
deriving DecidableEq, Repr

/-- Python truthiness of the optional string `additive.get("ins_number")`:
`None` and `""` are falsy. -/
def truthyStr : Option String → Bool
  | none => false
  | some s => s ≠ ""

/-- The body of one iteration of the indexing loop in
`FSSAIKnowledgeBase.load`: inserts the record into `additives` keyed by
its (truthy) `ins_number`, and into `name_to_ins` keyed by its non-empty
lowercased name. -/
def indexRecord (st : KBState) (r : AdditiveRecord) : KBState :=
  let ins := r.ins_number
  let nm := strLower (r.name.getD "")
  let st1 := if truthyStr ins
    then { st with additives := (ins.getD "", r) :: st.additives }
    else st
  if nm ≠ "" then { st1 with name_to_ins := (nm, ins) :: st1.name_to_ins }
  else st1

/-- The indexing loop of `load` over the parsed entries.  A malformed
entry raises (`.get` on a non-mapping): the loop stops there, returning
the state mutated so far together with the exception. -/
def processEntries : List DataEntry → KBState → KBState × Option String
  | [], st => (st, none)
  | DataEntry.malformed :: _, st => (st, some "AttributeError")
  | DataEntry.record r :: rest, st => processEntries rest (indexRecord st r)

/-- The `try:` block of `FSSAIKnowledgeBase.load`: opening and parsing
the file (raises on a bad source), then the indexing loop (raises on a
malformed entry); on success the `loaded` flag is set inside the block.
An error carries the state as mutated up to the raise. -/
def loadTry (st : KBState) : Except (KBState × String) KBState :=
  match st.source with
  | DataSource.bad => Except.error (st, "JSONDecodeError")
  | DataSource.ok entries =>
      match processEntries entries st with
      | (st', none) => Except.ok { st' with loaded := true }
      | (st', some e) => Except.error (st', e)
  | DataSource.missing => Except.ok { st with loaded := true }

namespace FSSAIKnowledgeBase

/-- `FSSAIKnowledgeBase.load`: if the data file is absent, warn and mark
loaded; otherwise run the `try:` block, and on any exception fall into
`except:` which logs and marks loaded.  No exception escapes. -/
def load (st : KBState) : KBState :=
  if st.source = DataSource.missing then { st with loaded := true }
  else
    match loadTry st with
    | Except.ok st' => st'
    | Except.error (st', _) => { st' with loaded := true }

/-- `FSSAIKnowledgeBase.lookup_by_ins`: an implicit `load` when not yet
loaded, then a lookup in the code index.  Returns the (possibly mutated)
state together with the result. -/
def lookup_by_ins (st : KBState) (ins_number : String) :
    KBState × Option AdditiveRecord :=
  let st' := if st.loaded then st else load st
  (st', st'.additives.lookup ins_number)

end FSSAIKnowledgeBase

/-- `models.IngredientDetail`: the per-additive output record. -/
structure IngredientDetail where
  raw : String
  normalized_ins : Option String
  name : Option String
  status : String
  max_ppm : Option Int
  allowed_in : Option (List String)
  notes : Option String
deriving DecidableEq, Repr

/-- Python `\s` on the ASCII range: space, tab, newline, carriage
return, vertical tab, form feed. -/
def pyIsSpace (c : Char) : Bool :=
  c = ' ' || c = '\t' || c = '\n' || c = '\x0d' || c = '\x0b' || c = '\x0c'

/-- The character class `[\s-]` of the extraction patterns. -/
def isSepChar (c : Char) : Bool :=
  pyIsSpace c || c = '-'

/-- Greedy `\d{3,4}` at the head of `r`, with `pre` the separator chars
already consumed: four digits if available, else three, else fail.
Returns (consumed chars, digit group, remaining input). -/
def takeCode (pre : List Char) (r : List Char) :
    Option (List Char × List Char × List Char) :=
  match r with
  | d1 :: d2 :: d3 :: r3 =>
      if d1.isDigit && d2.isDigit && d3.isDigit then
        match r3 with
        | d4 :: r4 =>
            if d4.isDigit then
              some (pre ++ [d1, d2, d3, d4], [d1, d2, d3, d4], r4)
            else some (pre ++ [d1, d2, d3], [d1, d2, d3], r3)
        | [] => some (pre ++ [d1, d2, d3], [d1, d2, d3], [])
      else none
  | _ => none

/-- `[\s-]?\d{3,4}` after the marker: an optional single separator, then
the greedy digit group (a separator is never a digit, so the backtrack
of `[\s-]?` can only succeed with zero separators consumed). -/
def matchAfterMarker (r : List Char) :
    Option (List Char × List Char × List Char) :=
  match r with
  | c :: rest => if isSepChar c then takeCode [c] rest else takeCode [] r
  | [] => none

/-- The optional annotation `(?:\s*\([^)]+\))?`: greedy whitespace, an
opening parenthesis, one or more non-`)` characters, a closing
parenthesis; `none` when the group matches empty. -/
def tryAnnot (r : List Char) : Option (List Char × List Char) :=
  let ws := r.takeWhile pyIsSpace
  match r.dropWhile pyIsSpace with
  | '(' :: r2 =>
      let inner := r2.takeWhile (fun c => c ≠ ')')
      match r2.dropWhile (fun c => c ≠ ')') with
      | ')' :: r4 =>
          if inner ≠ [] then some (ws ++ '(' :: (inner ++ [')']), r4)
          else none
      | _ => none
  | _ => none

/-- Assembles a full pattern match given the consumed marker and the
rest of the input: separator+digits, then the optional annotation.
Returns (raw matched text, digit group, remaining input). -/
def matchTail (marker rest : List Char) :
    Option (List Char × List Char × List Char) :=
  match matchAfterMarker rest with
  | none => none
  | some (mid, digits, rest2) =>
      match tryAnnot rest2 with
      | some (a, rest3) => some (marker ++ (mid ++ a), digits, rest3)
      | none => some (marker ++ mid, digits, rest2)

/-- The INS pattern `(?:INS[\s-]?(\d{3,4})(?:\s*\([^)]+\))?)` with
`re.IGNORECASE`, anchored at the head of the input. -/
def matchInsAt (s : List Char) :
    Option (List Char × List Char × List Char) :=
  match s with
  | c1 :: c2 :: c3 :: rest =>
      if c1.toLower = 'i' && c2.toLower = 'n' && c3.toLower = 's' then
        matchTail [c1, c2, c3] rest
      else none
  | _ => none

/-- The E-number pattern `(?:E[\s-]?(\d{3,4})(?:\s*\([^)]+\))?)` with
`re.IGNORECASE`, anchored at the head of the input. -/
def matchEAt (s : List Char) :
    Option (List Char × List Char × List Char) :=
  match s with
  | c :: rest => if c.toLower = 'e' then matchTail [c] rest else none
  | [] => none

/-- `re.finditer` over the suffixes of the input: at each position try
the anchored matcher; on a hit emit (start position, raw text, digit
group) and resume after the match, otherwise advance one character.
`fuel` bounds the recursion; the initial fuel `s.length` suffices since
every match consumes at least the marker. -/
def finditerAux (m : List Char → Option (List Char × List Char × List Char)) :
    Nat → List Char → Nat → List (Nat × List Char × List Char)
  | 0, _, _ => []
  | _ + 1, [], _ => []
  | fuel + 1, c :: cs, pos =>
      match m (c :: cs) with
      | some (raw, digits, rest) =>
          (pos, raw, digits) :: finditerAux m fuel rest (pos + raw.length)
      | none => finditerAux m fuel cs (pos + 1)

/-- All matches of the INS pattern over the text, in scan order. -/
def insMatches (s : String) : List (Nat × List Char × List Char) :=
  finditerAux matchInsAt s.data.length s.data 0

/-- All matches of the E-number pattern over the text, in scan order. -/
def eMatches (s : String) : List (Nat × List Char × List Char) :=
  finditerAux matchEAt s.data.length s.data 0

/-- Projects a finditer match to the `(raw_match, number)` pair appended
to the `additives` list in `extract_additives`. -/
def matchToPair (x : Nat × List Char × List Char) : String × String :=
  (String.mk x.2.1, String.mk x.2.2)

namespace IngredientsAnalyzer

/-- `IngredientsAnalyzer.extract_additives`: the INS pass over the whole
text, then the E-number pass over the same whole text, concatenated. -/
def extract_additives (ingredients_text : String) : List (String × String) :=
  (insMatches ingredients_text).map matchToPair
    ++ (eMatches ingredients_text).map matchToPair

/-- `IngredientsAnalyzer.analyze_ingredient`: look the code up in the
knowledge base (possibly triggering its implicit load); on a hit copy
the record's fields with `status` defaulting to `"unknown"`; on a miss
return the bare detail with status `"unknown"`. -/
def analyze_ingredient (st : KBState) (raw ins_number : String) :
    KBState × IngredientDetail :=
  match FSSAIKnowledgeBase.lookup_by_ins st ins_number with
  | (st', some fssai_data) =>
      (st', { raw := raw
              normalized_ins := some ins_number
              name := fssai_data.name
              status := fssai_data.status.getD "unknown"
              max_ppm := fssai_data.max_ppm
              allowed_in := fssai_data.allowed_in
              notes := fssai_data.notes })
  | (st', none) =>
      (st', { raw := raw
              normalized_ins := some ins_number
              name := none
              status := "unknown"
              max_ppm := none
              allowed_in := none
              notes := none })

/-- The analysis loop of `analyze_ingredients_text`, threading the
knowledge-base state through the per-additive calls. -/
def analyzeAll (st : KBState) :
    List (String × String) → KBState × List IngredientDetail
  | [] => (st, [])
  | (raw, ins) :: rest =>
      let p := analyze_ingredient st raw ins
      let q := analyzeAll p.1 rest
      (q.1, p.2 :: q.2)

/-- The `if/elif` chain of one iteration of the status-counting loop in
`_determine_product_compliance`, updating the four flags
(has_banned, has_restricted, has_unknown, has_permitted). -/
def statusStep (f : Bool × Bool × Bool × Bool) (ing : IngredientDetail) :
    Bool × Bool × Bool × Bool :=
  let s := strLower ing.status
  if s = "banned" then (true, f.2.1, f.2.2.1, f.2.2.2)
  else if s = "restricted" then (f.1, true, f.2.2.1, f.2.2.2)
  else if s = "unknown" then (f.1, f.2.1, true, f.2.2.2)
  else if s = "permitted" then (f.1, f.2.1, f.2.2.1, true)
  else f

/-- `IngredientsAnalyzer._determine_product_compliance`: empty list is
`"unknown"`; otherwise the flag-collecting loop followed by the
precedence chain banned > restricted > unknown > permitted. -/
def determine_product_compliance (ingredients : List IngredientDetail) :
    String :=
  if ingredients.isEmpty then "unknown"
  else
    let f := ingredients.foldl statusStep (false, false, false, false)
    if f.1 then "non_compliant"
    else if f.2.1 then "partially_compliant"
    else if f.2.2.1 then "unknown"
    else if f.2.2.2 then "compliant"
    else "unknown"

/-- `IngredientsAnalyzer.analyze_ingredients_text`: extract, analyze
each candidate in order, then derive the product verdict. -/
def analyze_ingredients_text (st : KBState) (ingredients_text : String) :
    KBState × List IngredientDetail × String :=
  let p := analyzeAll st (extract_additives ingredients_text)
  (p.1, p.2, determine_product_compliance p.2)

end IngredientsAnalyzer

/-! ### Characterization of the aggregation rule -/

/-- Whether some detail's lowercased status equals `s`. -/
def hasStatus (l : List IngredientDetail) (s : String) : Bool :=
  l.any (fun d => strLower d.status = s)

theorem statusStep_eq (f : Bool × Bool × Bool × Bool) (d : IngredientDetail) :
    IngredientsAnalyzer.statusStep f d =
      (f.1 || strLower d.status = "banned",
       f.2.1 || strLower d.status = "restricted",
       f.2.2.1 || strLower d.status = "unknown",
       f.2.2.2 || strLower d.status = "permitted") := by
  unfold IngredientsAnalyzer.statusStep
  dsimp only
  split_ifs with h1 h2 h3 h4 <;> simp_all

theorem foldl_statusStep (l : List IngredientDetail)
    (f : Bool × Bool × Bool × Bool) :
    l.foldl IngredientsAnalyzer.statusStep f =
      (f.1 || hasStatus l "banned", f.2.1 || hasStatus l "restricted",
       f.2.2.1 || hasStatus l "unknown", f.2.2.2 || hasStatus l "permitted") := by
  induction l generalizing f with
  | nil => simp [hasStatus]
  | cons d l ih =>
      rw [List.foldl_cons, statusStep_eq, ih]
      simp [hasStatus, Bool.or_assoc]

/-- The aggregation rule written as a precedence chain over status
membership, to be compared with the loop-and-flags implementation. -/
def verdictSpec (l : List IngredientDetail) : String :=
  if l = [] then "unknown"
  else if hasStatus l "banned" then "non_compliant"
  else if hasStatus l "restricted" then "partially_compliant"
  else if hasStatus l "unknown" then "unknown"
  else if hasStatus l "permitted" then "compliant"
  else "unknown"

theorem determine_eq_verdictSpec (l : List IngredientDetail) :
    IngredientsAnalyzer.determine_product_compliance l = verdictSpec l := by
  unfold IngredientsAnalyzer.determine_product_compliance verdictSpec
  rw [foldl_statusStep]
  simp [List.isEmpty_iff]

theorem hasStatus_iff (l : List IngredientDetail) (s : String) :
    hasStatus l s = true ↔ ∃ d ∈ l, strLower d.status = s := by
  simp [hasStatus]

/-- Lowercasing fixes the four canonical status strings. -/
theorem strLower_canon {t : String}
    (h : t = "banned" ∨ t = "restricted" ∨ t = "unknown" ∨ t = "permitted") :
    strLower t = t := by
  rcases h with h | h | h | h <;> subst h <;> decide

/-- Over details whose statuses are canonical, `hasStatus` is plain
status membership. -/
theorem hasStatus_dom (l : List IngredientDetail)
    (hdom : ∀ d ∈ l, d.status = "banned" ∨ d.status = "restricted" ∨
      d.status = "unknown" ∨ d.status = "permitted") (s : String) :
    hasStatus l s = true ↔ ∃ d ∈ l, d.status = s := by
  rw [hasStatus_iff]
  constructor
  · rintro ⟨d, hd, h⟩
    exact ⟨d, hd, by rw [strLower_canon (hdom d hd)] at h; exact h⟩
  · rintro ⟨d, hd, h⟩
    exact ⟨d, hd, by rw [strLower_canon (hdom d hd)]; exact h⟩

theorem hasStatus_dom_false (l : List IngredientDetail)
    (hdom : ∀ d ∈ l, d.status = "banned" ∨ d.status = "restricted" ∨
      d.status = "unknown" ∨ d.status = "permitted") (s : String)
    (h : ∀ d ∈ l, d.status ≠ s) : hasStatus l s = false := by
  rw [Bool.eq_false_iff]
  intro hb
  obtain ⟨d, hd, he⟩ := (hasStatus_dom l hdom s).mp hb
  exact h d hd he

/-- C1: `_determine_product_compliance` implements the fixed precedence
rule over the canonical status domain: empty list gives "unknown"; any
"banned" gives "non_compliant"; else any "restricted" gives
"partially_compliant"; else any "unknown" gives "unknown"; else (all
"permitted") gives "compliant"; in particular a mix of only "permitted"
and "unknown" with at least one "unknown" gives "unknown". -/
theorem C1_verdict_precedence_rule (l : List IngredientDetail)
    (hdom : ∀ d ∈ l, d.status = "banned" ∨ d.status = "restricted" ∨
      d.status = "unknown" ∨ d.status = "permitted") :
    (l = [] → IngredientsAnalyzer.determine_product_compliance l = "unknown") ∧
    ((∃ d ∈ l, d.status = "banned") →
      IngredientsAnalyzer.determine_product_compliance l = "non_compliant") ∧
    ((∀ d ∈ l, d.status ≠ "banned") → (∃ d ∈ l, d.status = "restricted") →
      IngredientsAnalyzer.determine_product_compliance l =
        "partially_compliant") ∧
    ((∀ d ∈ l, d.status ≠ "banned" ∧ d.status ≠ "restricted") →
      (∃ d ∈ l, d.status = "unknown") →
      IngredientsAnalyzer.determine_product_compliance l = "unknown") ∧
    (l ≠ [] → (∀ d ∈ l, d.status = "permitted") →
      IngredientsAnalyzer.determine_product_compliance l = "compliant") ∧
    ((∀ d ∈ l, d.status = "permitted" ∨ d.status = "unknown") →
      (∃ d ∈ l, d.status = "unknown") →
      IngredientsAnalyzer.determine_product_compliance l = "unknown") := by
  rw [determine_eq_verdictSpec]
  refine ⟨?_, ?_, ?_, ?_, ?_, ?_⟩
  · rintro rfl; rfl
  · rintro ⟨d, hd, h⟩
    have hne : l ≠ [] := by rintro rfl; exact absurd hd (List.not_mem_nil d)
    have hb : hasStatus l "banned" = true := (hasStatus_dom l hdom _).mpr ⟨d, hd, h⟩
    simp [verdictSpec, hne, hb]
  · rintro hno ⟨d, hd, h⟩
    have hne : l ≠ [] := by rintro rfl; exact absurd hd (List.not_mem_nil d)
    have hb : hasStatus l "banned" = false := hasStatus_dom_false l hdom _ hno
    have hr : hasStatus l "restricted" = true :=
      (hasStatus_dom l hdom _).mpr ⟨d, hd, h⟩
    simp [verdictSpec, hne, hb, hr]
  · rintro hno ⟨d, hd, h⟩
    have hne : l ≠ [] := by rintro rfl; exact absurd hd (List.not_mem_nil d)
    have hb : hasStatus l "banned" = false :=
      hasStatus_dom_false l hdom _ (fun d hd => (hno d hd).1)
    have hr : hasStatus l "restricted" = false :=
      hasStatus_dom_false l hdom _ (fun d hd => (hno d hd).2)
    have hu : hasStatus l "unknown" = true :=
      (hasStatus_dom l hdom _).mpr ⟨d, hd, h⟩
    simp [verdictSpec, hne, hb, hr, hu]
  · intro hne hall
    obtain ⟨d, hd⟩ := List.exists_mem_of_ne_nil l hne
    have hb : hasStatus l "banned" = false :=
      hasStatus_dom_false l hdom _ (fun d hd => by rw [hall d hd]; decide)
    have hr : hasStatus l "restricted" = false :=
      hasStatus_dom_false l hdom _ (fun d hd => by rw [hall d hd]; decide)
    have hu : hasStatus l "unknown" = false :=
      hasStatus_dom_false l hdom _ (fun d hd => by rw [hall d hd]; decide)
    have hp : hasStatus l "permitted" = true :=
      (hasStatus_dom l hdom _).mpr ⟨d, hd, hall d hd⟩
    simp [verdictSpec, hne, hb, hr, hu, hp]
  · rintro hsub ⟨d, hd, h⟩
    have hne : l ≠ [] := by rintro rfl; exact absurd hd (List.not_mem_nil d)
    have hb : hasStatus l "banned" = false :=
      hasStatus_dom_false l hdom _ (fun d hd => by
        rcases hsub d hd with h' | h' <;> rw [h'] <;> decide)
    have hr : hasStatus l "restricted" = false :=
      hasStatus_dom_false l hdom _ (fun d hd => by
        rcases hsub d hd with h' | h' <;> rw [h'] <;> decide)
    have hu : hasStatus l "unknown" = true :=
      (hasStatus_dom l hdom _).mpr ⟨d, hd, h⟩
    simp [verdictSpec, hne, hb, hr, hu]

theorem C1_verdict_precedence_rule_witness :
    IngredientsAnalyzer.determine_product_compliance
      [⟨"INS 211", some "211", none, "permitted", none, none, none⟩,
       ⟨"E 928", some "928", none, "unknown", none, none, none⟩] = "unknown" :=
  (C1_verdict_precedence_rule _ (by decide)).2.2.2.2.2 (by decide)
    ⟨⟨"E 928", some "928", none, "unknown", none, none, none⟩, by decide, rfl⟩

/-- `hasStatus` is invariant under permutation of the detail list. -/
theorem hasStatus_perm {l l' : List IngredientDetail} (h : l.Perm l')
    (s : String) : hasStatus l s = hasStatus l' s := by
  rw [Bool.eq_iff_iff, hasStatus_iff, hasStatus_iff]
  exact ⟨fun ⟨d, hd, he⟩ => ⟨d, h.mem_iff.mp hd, he⟩,
    fun ⟨d, hd, he⟩ => ⟨d, h.mem_iff.mpr hd, he⟩⟩

/-- Prepending a detail already in the list leaves `hasStatus` fixed. -/
theorem hasStatus_dup {l : List IngredientDetail} {d : IngredientDetail}
    (hd : d ∈ l) (s : String) : hasStatus (d :: l) s = hasStatus l s := by
  rw [Bool.eq_iff_iff, hasStatus_iff, hasStatus_iff]
  constructor
  · rintro ⟨d', hd', he⟩
    rcases List.mem_cons.mp hd' with rfl | hmem
    · exact ⟨d', hd, he⟩
    · exact ⟨d', hmem, he⟩
  · rintro ⟨d', hd', he⟩
    exact ⟨d', List.mem_cons_of_mem d hd', he⟩

/-- C8: the verdict depends only on which statuses occur, not on order
or multiplicity: it is invariant under permutation of the detail list
and under duplicating any detail already in the list. -/
theorem C8_verdict_order_multiplicity_invariant :
    (∀ l l' : List IngredientDetail, l.Perm l' →
      IngredientsAnalyzer.determine_product_compliance l =
        IngredientsAnalyzer.determine_product_compliance l') ∧
    (∀ (l : List IngredientDetail) (d : IngredientDetail), d ∈ l →
      IngredientsAnalyzer.determine_product_compliance (d :: l) =
        IngredientsAnalyzer.determine_product_compliance l) := by
  constructor
  · intro l l' h
    rw [determine_eq_verdictSpec, determine_eq_verdictSpec]
    unfold verdictSpec
    rw [hasStatus_perm h, hasStatus_perm h, hasStatus_perm h, hasStatus_perm h]
    have hnil : l = [] ↔ l' = [] := by
      rw [← List.length_eq_zero, ← List.length_eq_zero, h.length_eq]
    by_cases he : l = []
    · simp [he, hnil.mp he]
    · have hne' : l' ≠ [] := fun c => he (hnil.mpr c)
      simp [he, hne']
  · intro l d hd
    rw [determine_eq_verdictSpec, determine_eq_verdictSpec]
    unfold verdictSpec
    rw [hasStatus_dup hd, hasStatus_dup hd, hasStatus_dup hd, hasStatus_dup hd]
    have hne : l ≠ [] := by rintro rfl; exact absurd hd (List.not_mem_nil d)
    simp [hne]

theorem C8_verdict_order_multiplicity_invariant_witness :
    (IngredientsAnalyzer.determine_product_compliance
      [⟨"a", none, none, "banned", none, none, none⟩,
       ⟨"b", none, none, "permitted", none, none, none⟩] =
     IngredientsAnalyzer.determine_product_compliance
      [⟨"b", none, none, "permitted", none, none, none⟩,
       ⟨"a", none, none, "banned", none, none, none⟩]) ∧
    (IngredientsAnalyzer.determine_product_compliance
      [⟨"a", none, none, "banned", none, none, none⟩,
       ⟨"a", none, none, "banned", none, none, none⟩,
       ⟨"b", none, none, "permitted", none, none, none⟩] =
     IngredientsAnalyzer.determine_product_compliance
      [⟨"a", none, none, "banned", none, none, none⟩,
       ⟨"b", none, none, "permitted", none, none, none⟩]) :=
  ⟨C8_verdict_order_multiplicity_invariant.1 _ _ (by decide),
   C8_verdict_order_multiplicity_invariant.2 _ _ (by decide)⟩

/-- `hasStatus` only reads the lowercased statuses. -/
theorem hasStatus_map_eq {l l' : List IngredientDetail}
    (h : l.map (fun d => strLower d.status) =
      l'.map (fun d => strLower d.status)) (s : String) :
    hasStatus l s = hasStatus l' s := by
  have : ∀ m : List IngredientDetail, hasStatus m s =
      (m.map (fun d => strLower d.status)).any (fun t => t = s) := by
    intro m
    induction m with
    | nil => rfl
    | cons d t ih => simp only [hasStatus, List.any_cons, List.map_cons] at ih ⊢; rw [ih]
  rw [this, this, h]

/-- C10: the aggregation compares statuses after lowercasing and
ignores unrecognized values: the verdict is a function of the
lowercased status list; any-cased spellings of the four statuses count
as those statuses; a non-empty list none of whose statuses lowercases
to a recognized value yields "unknown". -/
theorem C10_lowercase_and_unrecognized_statuses :
    (∀ l l' : List IngredientDetail,
      l.map (fun d => strLower d.status) = l'.map (fun d => strLower d.status) →
      IngredientsAnalyzer.determine_product_compliance l =
        IngredientsAnalyzer.determine_product_compliance l') ∧
    (∀ l : List IngredientDetail, l ≠ [] →
      (∀ d ∈ l, strLower d.status ≠ "banned" ∧ strLower d.status ≠ "restricted" ∧
        strLower d.status ≠ "unknown" ∧ strLower d.status ≠ "permitted") →
      IngredientsAnalyzer.determine_product_compliance l = "unknown") ∧
    IngredientsAnalyzer.determine_product_compliance
      [⟨"x", none, none, "BANNED", none, none, none⟩] = "non_compliant" ∧
    IngredientsAnalyzer.determine_product_compliance
      [⟨"x", none, none, "Restricted", none, none, none⟩] =
        "partially_compliant" ∧
    IngredientsAnalyzer.determine_product_compliance
      [⟨"x", none, none, "uNkNoWn", none, none, none⟩] = "unknown" ∧
    IngredientsAnalyzer.determine_product_compliance
      [⟨"x", none, none, "PERMITTED", none, none, none⟩] = "compliant" ∧
    IngredientsAnalyzer.determine_product_compliance
      [⟨"x", none, none, "allowed", none, none, none⟩] = "unknown" := by
  refine ⟨?_, ?_, by decide, by decide, by decide, by decide, by decide⟩
  · intro l l' h
    rw [determine_eq_verdictSpec, determine_eq_verdictSpec]
    unfold verdictSpec
    rw [hasStatus_map_eq h, hasStatus_map_eq h, hasStatus_map_eq h,
      hasStatus_map_eq h]
    have hnil : l = [] ↔ l' = [] := by
      rw [← List.length_eq_zero, ← List.length_eq_zero,
        ← List.length_map l (fun d => strLower d.status),
        ← List.length_map l' (fun d => strLower d.status), h]
    by_cases he : l = []
    · simp [he, hnil.mp he]
    · have hne' : l' ≠ [] := fun c => he (hnil.mpr c)
      simp [he, hne']
  · intro l hne hall
    rw [determine_eq_verdictSpec]
    unfold verdictSpec
    have hof : ∀ s, (∀ d ∈ l, strLower d.status ≠ s) → hasStatus l s = false := by
      intro s h
      rw [Bool.eq_false_iff]
      intro hb
      obtain ⟨d, hd, he⟩ := (hasStatus_iff l s).mp hb
      exact h d hd he
    have hb := hof _ (fun d hd => (hall d hd).1)
    have hr := hof _ (fun d hd => (hall d hd).2.1)
    have hu := hof _ (fun d hd => (hall d hd).2.2.1)
    have hp := hof _ (fun d hd => (hall d hd).2.2.2)
    simp [hne, hb, hr, hu, hp]

theorem C10_lowercase_and_unrecognized_statuses_witness :
    IngredientsAnalyzer.determine_product_compliance
      [⟨"y", none, none, "allowed", none, none, none⟩,
       ⟨"z", none, none, "Allowed", none, none, none⟩] = "unknown" :=
  C10_lowercase_and_unrecognized_statuses.2.1 _ (by decide) (by decide)

/-! ### Knowledge-base load and lookup behavior -/

/-- A detail as produced on a knowledge-base miss. -/
def missDetail (raw code : String) : IngredientDetail :=
  ⟨raw, some code, none, "unknown", none, none, none⟩

theorem load_missing (st : KBState) (hs : st.source = DataSource.missing) :
    FSSAIKnowledgeBase.load st = { st with loaded := true } := by
  unfold FSSAIKnowledgeBase.load
  rw [if_pos hs]

theorem loadTry_ok_loaded (st st' : KBState)
    (h : loadTry st = Except.ok st') : st'.loaded = true := by
  unfold loadTry at h
  split at h
  · cases h
  · split at h
    · cases h; rfl
    · cases h
  · cases h; rfl

theorem load_not_missing (st : KBState) (hs : ¬ st.source = DataSource.missing) :
    FSSAIKnowledgeBase.load st =
      match loadTry st with
      | Except.ok st' => st'
      | Except.error (st', _) => { st' with loaded := true } := by
  unfold FSSAIKnowledgeBase.load
  rw [if_neg hs]

theorem lookup_by_ins_missing (st : KBState)
    (hs : st.source = DataSource.missing) (ha : st.additives = [])
    (code : String) :
    (FSSAIKnowledgeBase.lookup_by_ins st code).1.source = DataSource.missing ∧
    (FSSAIKnowledgeBase.lookup_by_ins st code).1.additives = [] ∧
    (FSSAIKnowledgeBase.lookup_by_ins st code).2 = none := by
  unfold FSSAIKnowledgeBase.lookup_by_ins
  by_cases hl : st.loaded
  · simp [hl, hs, ha]
  · simp [hl, load_missing st hs, hs, ha]

theorem analyze_ingredient_missing (st : KBState)
    (hs : st.source = DataSource.missing) (ha : st.additives = [])
    (raw code : String) :
    (IngredientsAnalyzer.analyze_ingredient st raw code).1.source =
      DataSource.missing ∧
    (IngredientsAnalyzer.analyze_ingredient st raw code).1.additives = [] ∧
    (IngredientsAnalyzer.analyze_ingredient st raw code).2 =
      missDetail raw code := by
  have h := lookup_by_ins_missing st hs ha code
  rcases hp : FSSAIKnowledgeBase.lookup_by_ins st code with ⟨st2, d⟩
  rw [hp] at h
  obtain ⟨h1, h2, h3⟩ := h
  simp only at h1 h2 h3
  subst h3
  unfold IngredientsAnalyzer.analyze_ingredient
  rw [hp]
  exact ⟨h1, h2, rfl⟩

theorem analyzeAll_missing :
    ∀ (pairs : List (String × String)) (st : KBState),
      st.source = DataSource.missing → st.additives = [] →
      (IngredientsAnalyzer.analyzeAll st pairs).2 =
        pairs.map (fun p => missDetail p.1 p.2) := by
  intro pairs
  induction pairs with
  | nil => intro st _ _; rfl
  | cons p rest ih =>
      intro st hs ha
      obtain ⟨raw, ins⟩ := p
      obtain ⟨h1, h2, h3⟩ := analyze_ingredient_missing st hs ha raw ins
      unfold IngredientsAnalyzer.analyzeAll
      dsimp only
      rw [h3, ih _ h1 h2]
      rfl

/-- A detail list whose statuses are all "unknown" aggregates to
"unknown" (empty list included). -/
theorem all_unknown_verdict (ds : List IngredientDetail)
    (h : ∀ d ∈ ds, d.status = "unknown") :
    IngredientsAnalyzer.determine_product_compliance ds = "unknown" := by
  rw [determine_eq_verdictSpec]
  unfold verdictSpec
  by_cases hne : ds = []
  · simp [hne]
  · have hof : ∀ s : String, s ≠ "unknown" → hasStatus ds s = false := by
      intro s hne'
      rw [Bool.eq_false_iff]
      intro hb
      obtain ⟨d, hd, he⟩ := (hasStatus_iff ds s).mp hb
      rw [h d hd] at he
      exact hne' (by rw [← he]; decide)
    have hu : hasStatus ds "unknown" = true := by
      obtain ⟨d, hd⟩ := List.exists_mem_of_ne_nil ds hne
      exact (hasStatus_iff ds "unknown").mpr ⟨d, hd, by rw [h d hd]; decide⟩
    simp [hne, hof "banned" (by decide), hof "restricted" (by decide), hu]

/-- C2: `load` never lets an exception reach its caller (every error of
the try-block lands in the except-branch, which marks the table loaded),
and a missing source leaves the table empty but usable: every
`lookup_by_ins` is absent, every resolution yields the bare
unknown-status detail, and a full analysis returns all-unknown details
and verdict "unknown" rather than failing. -/
theorem C2_load_tolerates_all_sources (st : KBState) :
    (∀ (st' : KBState) (e : String), loadTry st = Except.error (st', e) →
      FSSAIKnowledgeBase.load st = { st' with loaded := true }) ∧
    ((FSSAIKnowledgeBase.load st).loaded = true) ∧
    (st.source = DataSource.missing →
      FSSAIKnowledgeBase.load st = { st with loaded := true }) ∧
    (st.source = DataSource.missing → st.additives = [] →
      (∀ code, (FSSAIKnowledgeBase.lookup_by_ins st code).2 = none) ∧
      (∀ raw code, (IngredientsAnalyzer.analyze_ingredient st raw code).2 =
        missDetail raw code) ∧
      (∀ text,
        (∀ d ∈ (IngredientsAnalyzer.analyze_ingredients_text st text).2.1,
          d.status = "unknown") ∧
        (IngredientsAnalyzer.analyze_ingredients_text st text).2.2 =
          "unknown")) := by
  refine ⟨?_, ?_, load_missing st, ?_⟩
  · intro st' e h
    have hs : ¬ st.source = DataSource.missing := by
      intro hm
      unfold loadTry at h
      rw [hm] at h
      cases h
    rw [load_not_missing st hs, h]
  · by_cases hs : st.source = DataSource.missing
    · rw [load_missing st hs]
    · rw [load_not_missing st hs]
      cases hl : loadTry st with
      | ok st' => exact loadTry_ok_loaded st st' hl
      | error p => rfl
  · intro hs ha
    refine ⟨fun code => (lookup_by_ins_missing st hs ha code).2.2,
      fun raw code => (analyze_ingredient_missing st hs ha raw code).2.2, ?_⟩
    intro text
    have hall := analyzeAll_missing
      (IngredientsAnalyzer.extract_additives text) st hs ha
    constructor
    · intro d hd
      unfold IngredientsAnalyzer.analyze_ingredients_text at hd
      simp only at hd
      rw [hall] at hd
      obtain ⟨p, _, rfl⟩ := List.mem_map.mp hd
      rfl
    · unfold IngredientsAnalyzer.analyze_ingredients_text
      simp only
      rw [hall]
      apply all_unknown_verdict
      intro d hd
      obtain ⟨p, _, rfl⟩ := List.mem_map.mp hd
      rfl

theorem C2_load_tolerates_all_sources_witness :
    (FSSAIKnowledgeBase.load ⟨DataSource.missing, [], [], false⟩).loaded =
      true ∧
    (FSSAIKnowledgeBase.lookup_by_ins
      ⟨DataSource.missing, [], [], false⟩ "211").2 = none ∧
    (IngredientsAnalyzer.analyze_ingredients_text
      ⟨DataSource.missing, [], [], false⟩ "INS 928").2.2 = "unknown" :=
  ⟨(C2_load_tolerates_all_sources ⟨DataSource.missing, [], [], false⟩).2.1,
   ((C2_load_tolerates_all_sources
      ⟨DataSource.missing, [], [], false⟩).2.2.2 rfl rfl).1 "211",
   (((C2_load_tolerates_all_sources
      ⟨DataSource.missing, [], [], false⟩).2.2.2 rfl rfl).2.2 "INS 928").2⟩

/-- C4: whenever the knowledge-base lookup for a code is absent,
`analyze_ingredient` returns the detail with status "unknown" and every
optional field absent, preserving the raw text and the normalized
code. -/
theorem C4_miss_yields_bare_unknown_detail (st : KBState)
    (raw code : String)
    (h : (FSSAIKnowledgeBase.lookup_by_ins st code).2 = none) :
    (IngredientsAnalyzer.analyze_ingredient st raw code).2 =
      ⟨raw, some code, none, "unknown", none, none, none⟩ := by
  rcases hp : FSSAIKnowledgeBase.lookup_by_ins st code with ⟨st2, d⟩
  rw [hp] at h
  simp only at h
  subst h
  unfold IngredientsAnalyzer.analyze_ingredient
  rw [hp]

theorem C4_miss_yields_bare_unknown_detail_witness :
    (IngredientsAnalyzer.analyze_ingredient
      ⟨DataSource.missing, [], [], true⟩ "INS 928" "928").2 =
      ⟨"INS 928", some "928", none, "unknown", none, none, none⟩ :=
  C4_miss_yields_bare_unknown_detail
    ⟨DataSource.missing, [], [], true⟩ "INS 928" "928" (by decide)

/-- A stored record whose status field is absent. -/
def recNoStatus : AdditiveRecord :=
  ⟨some "211", some "Sodium Benzoate", none, none, none, none⟩

/-- A loaded table holding `recNoStatus` under code "211". -/
def stWithNoStatus : KBState :=
  ⟨DataSource.missing, [("211", recNoStatus)], [], true⟩

/-- A loaded table with no record at all. -/
def stEmptyLoaded : KBState := ⟨DataSource.missing, [], [], true⟩

/-- C5 counterexample: a stored record lacking its status field is NOT
resolved identically to no record: the record's name is still copied
into the detail, which a true miss leaves absent. -/
theorem C5_counterexample_status_absent_copies_fields :
    (IngredientsAnalyzer.analyze_ingredient stWithNoStatus "INS 211" "211").2 ≠
    (IngredientsAnalyzer.analyze_ingredient stEmptyLoaded "INS 211" "211").2 := by
  decide

/-- C5 amended: a stored record lacking its status field resolves with
status forced to "unknown" — matching the no-record case on the status
(so the verdict is unaffected) — but its remaining optional fields are
copied from the record rather than left absent; the resulting detail
equals the no-record detail exactly when the record carries no name,
max_ppm, allowed_in or notes. -/
theorem C5_amended_status_absent_forces_unknown (st : KBState)
    (raw code : String) (r : AdditiveRecord)
    (hl : (FSSAIKnowledgeBase.lookup_by_ins st code).2 = some r)
    (hs : r.status = none) :
    (IngredientsAnalyzer.analyze_ingredient st raw code).2.status =
      "unknown" ∧
    (IngredientsAnalyzer.analyze_ingredient st raw code).2 =
      ⟨raw, some code, r.name, "unknown", r.max_ppm, r.allowed_in, r.notes⟩ ∧
    (r.name = none → r.max_ppm = none → r.allowed_in = none →
      r.notes = none →
      (IngredientsAnalyzer.analyze_ingredient st raw code).2 =
        ⟨raw, some code, none, "unknown", none, none, none⟩) := by
  rcases hp : FSSAIKnowledgeBase.lookup_by_ins st code with ⟨st2, d⟩
  rw [hp] at hl
  simp only at hl
  subst hl
  unfold IngredientsAnalyzer.analyze_ingredient
  rw [hp]
  refine ⟨by simp [hs], by simp [hs], ?_⟩
  intro h1 h2 h3 h4
  simp [hs, h1, h2, h3, h4]

theorem C5_amended_status_absent_forces_unknown_witness :
    (IngredientsAnalyzer.analyze_ingredient stWithNoStatus
      "INS 211" "211").2.status = "unknown" ∧
    (IngredientsAnalyzer.analyze_ingredient stWithNoStatus
      "INS 211" "211").2 =
      ⟨"INS 211", some "211", some "Sodium Benzoate", "unknown",
        none, none, none⟩ :=
  ⟨(C5_amended_status_absent_forces_unknown stWithNoStatus
      "INS 211" "211" recNoStatus (by decide) rfl).1,
   (C5_amended_status_absent_forces_unknown stWithNoStatus
      "INS 211" "211" recNoStatus (by decide) rfl).2.1⟩

/-! ### Mutation through the implicit load -/

theorem lookup_by_ins_loaded (st : KBState) (h : st.loaded = true)
    (code : String) :
    FSSAIKnowledgeBase.lookup_by_ins st code =
      (st, st.additives.lookup code) := by
  unfold FSSAIKnowledgeBase.lookup_by_ins
  rw [h]
  simp

theorem analyze_ingredient_loaded (st : KBState) (h : st.loaded = true)
    (raw code : String) :
    (IngredientsAnalyzer.analyze_ingredient st raw code).1 = st := by
  unfold IngredientsAnalyzer.analyze_ingredient
  rw [lookup_by_ins_loaded st h]
  cases st.additives.lookup code <;> rfl

theorem analyzeAll_loaded (st : KBState) (h : st.loaded = true)
    (pairs : List (String × String)) :
    (IngredientsAnalyzer.analyzeAll st pairs).1 = st := by
  induction pairs with
  | nil => rfl
  | cons p rest ih =>
      obtain ⟨raw, ins⟩ := p
      unfold IngredientsAnalyzer.analyzeAll
      dsimp only
      rw [analyze_ingredient_loaded st h raw ins, ih]

/-- A not-yet-loaded table whose source holds one permitted record. -/
def stUnloaded : KBState :=
  ⟨DataSource.ok [DataEntry.record
      ⟨some "211", some "Sodium Benzoate", some "permitted", some 500,
        none, none⟩], [], [], false⟩

/-- C9 counterexample: an analysis call on a not-yet-loaded table DOES
mutate the table state — the first lookup triggers the implicit load,
flipping the loaded flag and populating the indexes. -/
theorem C9_counterexample_unloaded_analysis_mutates :
    (IngredientsAnalyzer.analyze_ingredients_text stUnloaded
      "INS 211").1.loaded = true ∧
    stUnloaded.loaded = false ∧
    (IngredientsAnalyzer.analyze_ingredients_text stUnloaded
      "INS 211").1.additives ≠ stUnloaded.additives := by
  decide

/-- C9 amended: once the table is loaded (`loaded = true`), an analysis
call leaves the knowledge-base state — code index, name index, loaded
flag — exactly unchanged, and repeating the call on the resulting state
returns the identical (details, verdict) result; before the first load,
the first lookup mutates the state through the implicit load. -/
theorem C9_amended_no_mutation_once_loaded (st : KBState) (text : String)
    (h : st.loaded = true) :
    (IngredientsAnalyzer.analyze_ingredients_text st text).1 = st ∧
    IngredientsAnalyzer.analyze_ingredients_text
        ((IngredientsAnalyzer.analyze_ingredients_text st text).1) text =
      IngredientsAnalyzer.analyze_ingredients_text st text := by
  have h1 : (IngredientsAnalyzer.analyze_ingredients_text st text).1 = st := by
    unfold IngredientsAnalyzer.analyze_ingredients_text
    dsimp only
    exact analyzeAll_loaded st h _
  exact ⟨h1, by rw [h1]⟩

theorem C9_amended_no_mutation_once_loaded_witness :
    (IngredientsAnalyzer.analyze_ingredients_text stWithNoStatus
      "INS 211").1 = stWithNoStatus :=
  (C9_amended_no_mutation_once_loaded stWithNoStatus "INS 211" rfl).1

/-! ### Load-loop behavior around malformed entries -/

theorem processEntries_append_malformed (pre : List DataEntry) :
    ∀ (st : KBState) (post : List DataEntry),
      (∀ e ∈ pre, ∃ r, e = DataEntry.record r) →
      processEntries (pre ++ DataEntry.malformed :: post) st =
        ((processEntries pre st).1, some "AttributeError") := by
  induction pre with
  | nil => intro st post _; rfl
  | cons e pre ih =>
      intro st post hall
      obtain ⟨r, rfl⟩ := hall e (List.mem_cons_self e pre)
      simp only [List.cons_append, processEntries]
      exact ih (indexRecord st r) post
        (fun e he => hall e (List.mem_cons_of_mem _ he))

theorem processEntries_all_records (pre : List DataEntry) :
    ∀ st : KBState, (∀ e ∈ pre, ∃ r, e = DataEntry.record r) →
      (processEntries pre st).2 = none := by
  induction pre with
  | nil => intro st _; rfl
  | cons e pre ih =>
      intro st hall
      obtain ⟨r, rfl⟩ := hall e (List.mem_cons_self e pre)
      simp only [processEntries]
      exact ih (indexRecord st r)
        (fun e he => hall e (List.mem_cons_of_mem _ he))

theorem indexRecord_fields (st st' : KBState) (r : AdditiveRecord)
    (ha : st.additives = st'.additives)
    (hn : st.name_to_ins = st'.name_to_ins) :
    (indexRecord st r).additives = (indexRecord st' r).additives ∧
    (indexRecord st r).name_to_ins = (indexRecord st' r).name_to_ins := by
  unfold indexRecord
  dsimp only
  split_ifs <;> simp [ha, hn]

theorem processEntries_fields (entries : List DataEntry) :
    ∀ st st' : KBState, st.additives = st'.additives →
      st.name_to_ins = st'.name_to_ins →
      (processEntries entries st).1.additives =
        (processEntries entries st').1.additives ∧
      (processEntries entries st).1.name_to_ins =
        (processEntries entries st').1.name_to_ins := by
  induction entries with
  | nil => intro st st' ha hn; exact ⟨ha, hn⟩
  | cons e rest ih =>
      intro st st' ha hn
      cases e with
      | malformed => exact ⟨ha, hn⟩
      | record r =>
          obtain ⟨ha', hn'⟩ := indexRecord_fields st st' r ha hn
          exact ih (indexRecord st r) (indexRecord st' r) ha' hn'

theorem load_ok (st : KBState) (entries : List DataEntry)
    (hs : st.source = DataSource.ok entries) :
    FSSAIKnowledgeBase.load st =
      { (processEntries entries st).1 with loaded := true } := by
  unfold FSSAIKnowledgeBase.load
  rw [if_neg (by simp [hs])]
  unfold loadTry
  rw [hs]
  dsimp only
  rcases hp : processEntries entries st with ⟨st2, err⟩
  cases err <;> rfl

/-- First well-formed dataset record, appearing before the malformed
entry. -/
def recA : AdditiveRecord :=
  ⟨some "100", some "Additive A", some "permitted", none, none, none⟩

/-- Second well-formed dataset record, appearing after the malformed
entry. -/
def recB : AdditiveRecord :=
  ⟨some "200", some "Additive B", some "permitted", none, none, none⟩

/-- A fresh table whose source holds a well-formed record, then a
malformed entry, then another well-formed record. -/
def stAB : KBState :=
  ⟨DataSource.ok [DataEntry.record recA, DataEntry.malformed,
    DataEntry.record recB], [], [], false⟩

/-- C3 counterexample: loading a dataset [well-formed A, malformed,
well-formed B] does NOT keep all well-formed records queryable: A
(before the malformed entry) is indexed, but B (after it) is lost,
because the exception aborts the whole indexing loop. -/
theorem C3_counterexample_record_after_malformed_lost :
    (FSSAIKnowledgeBase.load stAB).additives.lookup "100" = some recA ∧
    (FSSAIKnowledgeBase.load stAB).additives.lookup "200" = none := by
  decide

/-- C3 amended: a malformed (non-mapping) record does not raise to the
caller, and well-formed records BEFORE it are still indexed exactly as
if the dataset ended there — but the exception aborts the indexing
loop, so records AFTER the malformed one are not indexed.  A merely
partial record (a mapping with a falsy code) adds nothing to the code
index yet loading continues past it. -/
theorem C3_amended_malformed_aborts_rest (adds : List (String × AdditiveRecord))
    (names : List (String × Option String)) (ld : Bool)
    (pre post : List DataEntry)
    (hall : ∀ e ∈ pre, ∃ r, e = DataEntry.record r) :
    ((FSSAIKnowledgeBase.load
        ⟨DataSource.ok (pre ++ DataEntry.malformed :: post), adds, names, ld⟩).additives =
      (FSSAIKnowledgeBase.load ⟨DataSource.ok pre, adds, names, ld⟩).additives ∧
     (FSSAIKnowledgeBase.load
        ⟨DataSource.ok (pre ++ DataEntry.malformed :: post), adds, names, ld⟩).name_to_ins =
      (FSSAIKnowledgeBase.load ⟨DataSource.ok pre, adds, names, ld⟩).name_to_ins ∧
     (FSSAIKnowledgeBase.load
        ⟨DataSource.ok (pre ++ DataEntry.malformed :: post), adds, names, ld⟩).loaded = true) ∧
    (∀ (st : KBState) (r : AdditiveRecord), truthyStr r.ins_number = false →
      (indexRecord st r).additives = st.additives) ∧
    (∀ (st : KBState) (r : AdditiveRecord) (rest : List DataEntry),
      processEntries (DataEntry.record r :: rest) st =
        processEntries rest (indexRecord st r)) := by
  refine ⟨?_, ?_, fun st r rest => rfl⟩
  · rw [load_ok _ _ rfl, load_ok _ _ rfl,
      processEntries_append_malformed pre _ post hall]
    obtain ⟨ha, hn⟩ := processEntries_fields pre
      ⟨DataSource.ok (pre ++ DataEntry.malformed :: post), adds, names, ld⟩
      ⟨DataSource.ok pre, adds, names, ld⟩ rfl rfl
    exact ⟨ha, hn, rfl⟩
  · intro st r h
    unfold indexRecord
    dsimp only
    rw [h]
    simp only [Bool.false_eq_true, if_false]
    split_ifs <;> rfl

theorem C3_amended_malformed_aborts_rest_witness :
    (FSSAIKnowledgeBase.load
      ⟨DataSource.ok [DataEntry.record recA, DataEntry.malformed,
        DataEntry.record recB], [], [], false⟩).additives =
    (FSSAIKnowledgeBase.load
      ⟨DataSource.ok [DataEntry.record recA], [], [], false⟩).additives :=
  (C3_amended_malformed_aborts_rest [] [] false [DataEntry.record recA]
    [DataEntry.record recB]
    (fun _ he => ⟨recA, List.mem_singleton.mp he⟩)).1.1

/-! ### Order of finditer matches -/

theorem matchTail_raw (marker rest : List Char)
    (out : List Char × List Char × List Char)
    (h : matchTail marker rest = some out) : ∃ t, out.1 = marker ++ t := by
  unfold matchTail at h
  split at h
  · cases h
  · split at h
    · cases h; exact ⟨_, rfl⟩
    · cases h; exact ⟨_, rfl⟩

theorem matchInsAt_raw_ne (s : List Char)
    (out : List Char × List Char × List Char)
    (h : matchInsAt s = some out) : out.1 ≠ [] := by
  unfold matchInsAt at h
  split at h
  · split at h
    · obtain ⟨t, ht⟩ := matchTail_raw _ _ _ h
      rw [ht]
      simp
    · cases h
  · cases h

theorem matchEAt_raw_ne (s : List Char)
    (out : List Char × List Char × List Char)
    (h : matchEAt s = some out) : out.1 ≠ [] := by
  unfold matchEAt at h
  split at h
  · split at h
    · obtain ⟨t, ht⟩ := matchTail_raw _ _ _ h
      rw [ht]
      simp
    · cases h
  · cases h

theorem finditerAux_le
    (m : List Char → Option (List Char × List Char × List Char)) :
    ∀ (fuel : Nat) (s : List Char) (pos : Nat)
      (q : Nat × List Char × List Char),
      q ∈ finditerAux m fuel s pos → pos ≤ q.1 := by
  intro fuel
  induction fuel with
  | zero => intro s pos q hq; simp [finditerAux] at hq
  | succ n ih =>
      intro s pos q hq
      cases s with
      | nil => simp [finditerAux] at hq
      | cons c cs =>
          rcases hm : m (c :: cs) with _ | ⟨raw, digits, rest⟩
          · simp only [finditerAux, hm] at hq
            exact le_trans (Nat.le_succ pos) (ih cs (pos + 1) q hq)
          · simp only [finditerAux, hm] at hq
            rcases List.mem_cons.mp hq with rfl | hq'
            · exact le_refl pos
            · exact le_trans (Nat.le_add_right pos raw.length)
                (ih rest (pos + raw.length) q hq')

theorem finditerAux_chain
    (m : List Char → Option (List Char × List Char × List Char))
    (hm : ∀ s out, m s = some out → out.1 ≠ []) :
    ∀ (fuel : Nat) (s : List Char) (pos : Nat),
      List.Chain' (fun a b => a < b)
        ((finditerAux m fuel s pos).map (fun q => q.1)) := by
  intro fuel
  induction fuel with
  | zero => intro s pos; simp [finditerAux]
  | succ n ih =>
      intro s pos
      cases s with
      | nil => simp [finditerAux]
      | cons c cs =>
          rcases hmc : m (c :: cs) with _ | ⟨raw, digits, rest⟩
          · simp only [finditerAux, hmc]
            exact ih cs (pos + 1)
          · simp only [finditerAux, hmc, List.map_cons]
            rw [List.chain'_cons']
            refine ⟨?_, ih rest (pos + raw.length)⟩
            intro b hb
            obtain ⟨q, hq, rfl⟩ :=
              List.mem_map.mp (List.mem_of_mem_head? hb)
            have h1 := finditerAux_le m n rest (pos + raw.length) q hq
            have h2 : 0 < raw.length :=
              List.length_pos.mpr (hm _ _ hmc)
            omega

/-- C6: `extract_additives` is the concatenation of the full INS pass
followed by the full E-number pass over the same whole text, each pass
in strictly increasing position order, with no deduplication or merging
across the passes (the INS match "INS 211 (E330)" and the E match
"E330" overlap and are both reported; "INS 211"/"E-211" both normalize
to "211" and both survive). -/
theorem C6_extraction_two_pass_concatenation :
    (∀ s : String, IngredientsAnalyzer.extract_additives s =
      (insMatches s).map matchToPair ++ (eMatches s).map matchToPair) ∧
    (∀ s : String, List.Chain' (fun a b => a < b)
      ((insMatches s).map (fun q => q.1))) ∧
    (∀ s : String, List.Chain' (fun a b => a < b)
      ((eMatches s).map (fun q => q.1))) ∧
    IngredientsAnalyzer.extract_additives "INS 211 (E330)" =
      [("INS 211 (E330)", "211"), ("E330", "330")] ∧
    IngredientsAnalyzer.extract_additives "INS 211 E-211" =
      [("INS 211", "211"), ("E-211", "211")] := by
  refine ⟨fun s => rfl, fun s => ?_, fun s => ?_, by decide, by decide⟩
  · exact finditerAux_chain matchInsAt matchInsAt_raw_ne _ _ _
  · exact finditerAux_chain matchEAt matchEAt_raw_ne _ _ _

/-- C7: normalization is independent of the textual decoration but
exact on the digit value: "INS 211", "INS-211" and "ins211" each
produce exactly one match, whose normalized code is the bare digit
string "211". -/
theorem C7_normalization_strips_decoration :
    IngredientsAnalyzer.extract_additives "INS 211" = [("INS 211", "211")] ∧
    IngredientsAnalyzer.extract_additives "INS-211" = [("INS-211", "211")] ∧
    IngredientsAnalyzer.extract_additives "ins211" = [("ins211", "211")] :=
  ⟨by decide, by decide, by decide⟩
